import Mathlib

/-!
# Verification of the `tiny` IRC connection core (`conn.rs`, `utils.rs`)

This file gives a shallow embedding of the connection state machine and the
message splitter of the `tiny` IRC client, and proves (or refutes) the
properties stated in the natural-language specification.

Strings are modelled byte-faithfully where byte arithmetic matters: a Rust
`&str` is a `List Char` and byte positions are sums of `Char.utf8Size`.
Fallible Rust code (panics on slicing/indexing/`unwrap`) is modelled with
`Option`, where `none` means the Rust code panics.
-/

namespace Tiny

/-! ## Byte-level string model (for `utils.rs` and `parse_servername`) -/

/-- Total UTF-8 byte length of a list of chars (= Rust `str::len`). -/
def utf8Len (s : List Char) : Nat := (s.map Char.utf8Size).sum

@[simp] theorem utf8Len_nil : utf8Len [] = 0 := rfl

@[simp] theorem utf8Len_cons (c : Char) (s : List Char) :
    utf8Len (c :: s) = c.utf8Size + utf8Len s := rfl

theorem utf8Len_append (a b : List Char) :
    utf8Len (a ++ b) = utf8Len a + utf8Len b := by
  induction a with
  | nil => simp
  | cons c cs ih => simp [ih]; omega

/-- Rust `str::is_char_boundary` restricted to indices `≤ len`:
`n` is a sum of the byte sizes of a prefix of `s`. -/
def is_char_boundary : List Char → Nat → Bool
  | _, 0 => true
  | [], _ + 1 => false
  | c :: cs, n + 1 =>
    if c.utf8Size ≤ n + 1 then is_char_boundary cs (n + 1 - c.utf8Size) else false

@[simp] theorem is_char_boundary_zero (s : List Char) : is_char_boundary s 0 = true := by
  cases s <;> rfl

/-- Rust byte slicing `&s[..n]` / `&s[n..]` at byte index `n`: returns the
prefix/suffix pair.  At a non-boundary index it returns `([], s)` (the code
never slices there; the pair still concatenates to `s`). -/
def take_bytes : List Char → Nat → (List Char × List Char)
  | s, 0 => ([], s)
  | [], _ + 1 => ([], [])
  | c :: cs, n + 1 =>
    if c.utf8Size ≤ n + 1 then
      let p := take_bytes cs (n + 1 - c.utf8Size)
      (c :: p.1, p.2)
    else ([], c :: cs)

theorem take_bytes_concat (s : List Char) (n : Nat) :
    (take_bytes s n).1 ++ (take_bytes s n).2 = s := by
  induction s generalizing n with
  | nil => cases n <;> rfl
  | cons c cs ih =>
    cases n with
    | zero => rfl
    | succ m =>
      simp only [take_bytes]
      split
      · simpa using ih (m + 1 - c.utf8Size)
      · rfl

theorem take_bytes_fst_len (s : List Char) (n : Nat) :
    utf8Len (take_bytes s n).1 ≤ n := by
  induction s generalizing n with
  | nil => cases n <;> simp [take_bytes]
  | cons c cs ih =>
    cases n with
    | zero => simp [take_bytes]
    | succ m =>
      simp only [take_bytes]
      split
      · rename_i h
        have := ih (m + 1 - c.utf8Size)
        simp only [utf8Len_cons]
        omega
      · simp [utf8Len]

theorem take_bytes_snd_len_le (s : List Char) (n : Nat) :
    (take_bytes s n).2.length ≤ s.length := by
  induction s generalizing n with
  | nil => cases n <;> simp [take_bytes]
  | cons c cs ih =>
    cases n with
    | zero => simp [take_bytes]
    | succ m =>
      simp only [take_bytes]
      split
      · have := ih (m + 1 - c.utf8Size)
        simp only [List.length_cons]
        omega
      · simp

theorem take_bytes_snd_lt (c : Char) (cs : List Char) (n : Nat)
    (h : c.utf8Size ≤ n) (hn : 1 ≤ n) :
    (take_bytes (c :: cs) n).2.length < (c :: cs).length := by
  cases n with
  | zero => omega
  | succ m =>
    simp only [take_bytes, if_pos h]
    have := take_bytes_snd_len_le cs (m + 1 - c.utf8Size)
    simp only [List.length_cons]
    omega

/-- Unicode `White_Space` property, as used by Rust `char::is_whitespace`
and `str::trim`. -/
def rust_is_whitespace (c : Char) : Bool :=
  let n := c.toNat
  (0x9 ≤ n && n ≤ 0xD) || n == 0x20 || n == 0x85 || n == 0xA0 || n == 0x1680 ||
  (0x2000 ≤ n && n ≤ 0x200A) || n == 0x2028 || n == 0x2029 || n == 0x202F ||
  n == 0x205F || n == 0x3000

/-- Byte-indexed whitespace occurrences of `s`, left to right, starting at
byte offset `ofs`.  Reversed, this is Rust
`s.rmatch_indices(char::is_whitespace)`. -/
def ws_indices_fwd : List Char → Nat → List (Nat × Char)
  | [], _ => []
  | c :: cs, ofs =>
    (if rust_is_whitespace c then [(ofs, c)] else []) ++ ws_indices_fwd cs (ofs + c.utf8Size)

/-- The split position chosen by the whitespace scan of
`SplitIterator::next` (`utils.rs` lines 55-68); `0` when no whitespace with
index `≤ max` exists (or when the found one sits at index 0 and does not
fit). -/
def ws_split (s : List Char) (max : Nat) : Nat :=
  match (ws_indices_fwd s 0).reverse.find? (fun p => decide (p.1 ≤ max)) with
  | none => 0
  | some p => if p.1 + p.2.utf8Size ≤ max then p.1 + p.2.utf8Size else p.1

/-- The split position chosen by the char-boundary fallback of
`SplitIterator::next` (`utils.rs` lines 70-78): the first of
`max, max-1, max-2, max-3` that is a char boundary, else `0`. -/
def boundary_split (s : List Char) (max : Nat) : Nat :=
  if is_char_boundary s max then max
  else if is_char_boundary s (max - 1) then max - 1
  else if is_char_boundary s (max - 2) then max - 2
  else if is_char_boundary s (max - 3) then max - 3
  else 0

/-- One step of `SplitIterator::next` in the `s.len() > max` case:
`none` models the `panic!("Can't split long msg")`. -/
def split_next (s : List Char) (max : Nat) : Option (List Char × List Char) :=
  let wsp := ws_split s max
  let split := if wsp = 0 then boundary_split s max else wsp
  if split = 0 then none else some (take_bytes s split)

/-- Full run of the iterator (fuel-indexed; each step consumes at least one
char, so `s.length + 1` fuel always suffices).  `none` models a panic. -/
def split_go : Nat → List Char → Nat → Option (List (List Char))
  | 0, _, _ => none
  | fuel + 1, s, max =>
    if utf8Len s ≤ max then some [s]
    else
      match split_next s max with
      | none => none
      | some (a, b) => (split_go fuel b max).map (fun l => a :: l)

/-- `utils::split_iterator(s, max)` run to completion, as the list of the
slices it yields.  For `max = 0` the Rust iterator yields nothing. -/
def split_iterator (s : List Char) (max : Nat) : Option (List (List Char)) :=
  if max = 0 then some [] else split_go (s.length + 1) s max

/-! ## Wire messages, events, parsed inbound messages -/

/-- One outbound frame, identified by the `wire::` writer that emits it.
`authenticateCreds u p` stands for `AUTHENTICATE base64(u \x00 u \x00 p)`
(the base64 codec is an external crate). -/
inductive WireMsg
  | passMsg (pass : String)
  | nickMsg (nick : String)
  | userMsg (hostname realname : String)
  | pingMsg (server : String)
  | pongMsg (server : String)
  | privmsgMsg (target msg : String)
  | ctcpActionMsg (target msg : String)
  | joinMsg (chans : List String)
  | partMsg (chan : String)
  | awayMsg (msg : Option String)
  | capLsMsg
  | capReqMsg (caps : List String)
  | capEndMsg
  | authenticateMsg (param : String)
  | authenticateCreds (username password : String)
  | rawMsg (msg : String)
  deriving DecidableEq, Repr

/-- Message prefix (`wire::Pfx`). -/
inductive Pfx
  | server (name : String)
  | user (nick user : String)
  deriving DecidableEq, Repr

/-- Parsed inbound command (`wire::Cmd`), with the fields `Conn::handle_msg`
inspects. -/
inductive Cmd
  | cap (client : String) (subcommand : String) (params : List String)
  | authenticate (param : String)
  | ping (server : String)
  | join (chans : List String)
  | nick (nick : String)
  | reply (num : Nat) (params : List String)
  | other
  deriving DecidableEq, Repr

/-- Parsed inbound message (`wire::Msg`). -/
structure Msg where
  pfx : Option Pfx
  cmd : Cmd
  deriving DecidableEq, Repr

/-- Upward event (`ConnEv`). -/
inductive ConnEv
  | connected
  | disconnected
  | wantReconnect
  | err
  | msg (m : Msg)
  | nickChange (nick : String)
  deriving DecidableEq, Repr

/-! ## Connection state -/

/-- `ConnStatus`: the three-state lifecycle.  The live variants own the
stream in Rust; stream contents are modelled as emitted `WireMsg` lists, so
only the tick counters remain.  Tick counters are `u8`. -/
inductive ConnStatus
  | pingPong (ticks_passed : Nat)
  | waitPong (ticks_passed : Nat)
  | disconnected (ticks_passed : Nat)
  deriving DecidableEq, Repr

/-- `config::SASLAuth`. -/
structure SASLAuth where
  username : String
  password : String
  deriving DecidableEq, Repr

/-- `config::Server`: the configuration `Conn::new` consumes. -/
structure ServerConfig where
  addr : String
  port : Nat
  tls : Bool
  hostname : String
  realname : String
  pass : Option String
  nicks : List String
  join : List String
  nickserv_ident : Option String
  sasl_auth : Option SASLAuth
  deriving DecidableEq, Repr

/-- The `Conn` struct (`conn.rs` lines 15-66), without the poller reference,
the raw byte `in_buf` (the codec is external; `read_ready` is given parsed
messages directly) and the stream (emissions are returned instead). -/
structure Conn where
  serv_addr : String
  serv_port : Nat
  tls : Bool
  hostname : String
  realname : String
  pass : Option String
  nicks : List String
  current_nick_idx : Nat
  auto_join : List String
  nickserv_ident : Option String
  away_status : Option String
  servername : Option String
  usermask : Option String
  conn_status : ConnStatus
  sasl_auth : Option SASLAuth
  nick_accepted : Bool
  deriving DecidableEq, Repr

/-- `ConnStatus::get_stream(_mut)` returns `Some` exactly on the live
variants. -/
def Conn.hasStream (c : Conn) : Bool :=
  match c.conn_status with
  | .disconnected _ => false
  | _ => true

/-- `Conn::get_nick` (`self.nicks[self.current_nick_idx]`); `none` models the
index-out-of-bounds panic. -/
def Conn.getNick (c : Conn) : Option String :=
  c.nicks.get? c.current_nick_idx

/-- Wire side effect of `introduce` (`conn.rs` lines 145-157). -/
def introduce (pass : Option String) (hostname realname nick : String) : List WireMsg :=
  (match pass with
   | some p => [WireMsg.passMsg p]
   | none => []) ++ [WireMsg.nickMsg nick, WireMsg.userMsg hostname realname]

/-- A state-plus-emissions result: new connection, outbound frames, events. -/
abbrev Step := Conn × List WireMsg × List ConnEv

/-! ## Construction, reconnection, tick handling -/

/-- `Conn::new` on the path where `Stream::new` succeeds.  `none` models the
`server.nicks[0]` panic on an empty nick list (non-SASL branch). -/
def Conn.new (server : ServerConfig) : Option (Conn × List WireMsg) := do
  let wire ←
    match server.sasl_auth with
    | some _ => some [WireMsg.capLsMsg]
    | none =>
      match server.nicks.head? with
      | none => none
      | some n0 => some (introduce server.pass server.hostname server.realname n0)
  pure
    ({ serv_addr := server.addr
       serv_port := server.port
       tls := server.tls
       hostname := server.hostname
       realname := server.realname
       pass := server.pass
       nicks := server.nicks
       current_nick_idx := 0
       auto_join := server.join
       nickserv_ident := server.nickserv_ident
       away_status := none
       servername := none
       usermask := none
       conn_status := ConnStatus.pingPong 0
       sasl_auth := server.sasl_auth
       nick_accepted := false }, wire)

/-- The state of `Conn::reconnect` after dropping the old stream (status
parked at `Disconnected{0}`, `nick_accepted` cleared) and applying the
optional new server address. -/
def reconnect_base (c : Conn) (new_serv : Option (String × Nat)) : Conn :=
  match new_serv with
  | some (name, port) =>
    { c with conn_status := ConnStatus.disconnected 0, nick_accepted := false,
             serv_addr := name, serv_port := port }
  | none => { c with conn_status := ConnStatus.disconnected 0, nick_accepted := false }

/-- `Conn::reconnect`.  `streamOk` tells whether `Stream::new` succeeds; on
failure the method returns `Err` with the connection left disconnected.
`none` models the `get_nick` panic. -/
def Conn.reconnect (c : Conn) (new_serv : Option (String × Nat)) (streamOk : Bool) :
    Option (Conn × List WireMsg) :=
  if streamOk then
    match (reconnect_base c new_serv).sasl_auth with
    | some _ =>
      some ({ reconnect_base c new_serv with
              conn_status := ConnStatus.pingPong 0, current_nick_idx := 0 },
            [WireMsg.capLsMsg])
    | none =>
      match (reconnect_base c new_serv).getNick with
      | none => none
      | some n =>
        some ({ reconnect_base c new_serv with
                conn_status := ConnStatus.pingPong 0, current_nick_idx := 0 },
              introduce (reconnect_base c new_serv).pass (reconnect_base c new_serv).hostname
                (reconnect_base c new_serv).realname n)
  else some (reconnect_base c new_serv, [])

/-- `Conn::enter_disconnect_state`. -/
def Conn.enter_disconnect_state (c : Conn) : Conn :=
  { c with conn_status := ConnStatus.disconnected 0, nick_accepted := false }

/-- `Conn::set_nick` (`conn.rs` lines 260-267). -/
def Conn.set_nick (c : Conn) (nick : String) : Conn :=
  match c.nicks.findIdx? (fun n => n = nick) with
  | some nick_idx => { c with current_nick_idx := nick_idx }
  | none =>
    { c with nicks := c.nicks ++ [nick],
             current_nick_idx := (c.nicks ++ [nick]).length - 1 }

/-- `Conn::next_nick` (`conn.rs` lines 269-279).  `none` models the
`nicks.last().unwrap()` panic (unreachable: the branch implies the list is
nonempty). -/
def Conn.next_nick (c : Conn) : Option (Conn × List WireMsg) :=
  if c.current_nick_idx + 1 = c.nicks.length then
    match c.nicks.getLast? with
    | none => none
    | some last =>
      let new_nick := last ++ "_"
      some ({ c with nicks := c.nicks ++ [new_nick],
                     current_nick_idx := c.current_nick_idx + 1 },
            if c.hasStream then [WireMsg.nickMsg new_nick] else [])
  else
    some ({ c with current_nick_idx := c.current_nick_idx + 1 }, [])

/-- `Conn::tick` (`conn.rs` lines 308-371).  `u8` tick arithmetic wraps at
256. -/
def Conn.tick (c : Conn) : Step :=
  match c.conn_status with
  | .pingPong t =>
    let ticks := (t + 1) % 256
    if ticks = 60 then
      match c.servername with
      | none => ({ c with conn_status := ConnStatus.waitPong 0 }, [], [])
      | some host => ({ c with conn_status := ConnStatus.waitPong 0 },
                      [WireMsg.pingMsg host], [])
    else ({ c with conn_status := ConnStatus.pingPong ticks }, [], [])
  | .waitPong t =>
    let ticks := (t + 1) % 256
    if ticks = 60 then
      ({ c with conn_status := ConnStatus.disconnected 0, nick_accepted := false },
       [], [ConnEv.disconnected])
    else ({ c with conn_status := ConnStatus.waitPong ticks }, [], [])
  | .disconnected t =>
    let ticks := (t + 1) % 256
    if ticks = 30 then
      ({ c with conn_status := ConnStatus.disconnected ticks, current_nick_idx := 0 },
       [], [ConnEv.wantReconnect])
    else ({ c with conn_status := ConnStatus.disconnected ticks }, [], [])

/-- `Conn::reset_ticks` (`conn.rs` lines 373-394). -/
def Conn.reset_ticks (c : Conn) : Conn :=
  match c.conn_status with
  | .pingPong _ => { c with conn_status := ConnStatus.pingPong 0 }
  | .waitPong _ => { c with conn_status := ConnStatus.pingPong 0 }
  | .disconnected _ => c

/-- Iterated `tick`, concatenating the emissions of the `n` calls. -/
def runTicks : Conn → Nat → Step
  | c, 0 => (c, [], [])
  | c, n + 1 =>
    let s1 := Conn.tick c
    let s2 := runTicks s1.1 n
    (s2.1, s1.2.1 ++ s2.2.1, s1.2.2 ++ s2.2.2)

/-! ## Outbound API -/

/-- `Conn::send_nick`. -/
def Conn.send_nick (c : Conn) (nick : String) : Conn × List WireMsg :=
  (c, if c.hasStream then [WireMsg.nickMsg nick] else [])

/-- `Conn::nickserv_ident` (the method, `conn.rs` lines 408-415): identify
with NickServ when a password is configured and a stream is present. -/
def Conn.nickservIdentMsgs (c : Conn) : List WireMsg :=
  match c.nickserv_ident with
  | some pwd => if c.hasStream then [WireMsg.privmsgMsg "NickServ" ("identify " ++ pwd)] else []
  | none => []

/-- `Conn::privmsg`. -/
def Conn.privmsg (c : Conn) (target msg : String) : Conn × List WireMsg :=
  (c, if c.hasStream then [WireMsg.privmsgMsg target msg] else [])

/-- `Conn::ctcp_action`. -/
def Conn.ctcp_action (c : Conn) (target msg : String) : Conn × List WireMsg :=
  (c, if c.hasStream then [WireMsg.ctcpActionMsg target msg] else [])

/-- `Conn::join`. -/
def Conn.join (c : Conn) (chans : List String) : Conn × List WireMsg :=
  (c, if c.hasStream then [WireMsg.joinMsg chans] else [])

/-- `Conn::part` (`conn.rs` lines 471-476): the `auto_join.drain_filter` runs
unconditionally. -/
def Conn.part (c : Conn) (chan : String) : Conn × List WireMsg :=
  ({ c with auto_join := c.auto_join.filter (fun x => x ≠ chan) },
   if c.hasStream then [WireMsg.partMsg chan] else [])

/-- `Conn::away` (`conn.rs` lines 478-483): `away_status` is updated
unconditionally. -/
def Conn.away (c : Conn) (msg : Option String) : Conn × List WireMsg :=
  ({ c with away_status := msg },
   if c.hasStream then [WireMsg.awayMsg msg] else [])

/-- `Conn::raw_msg`. -/
def Conn.raw_msg (c : Conn) (msg : String) : Conn × List WireMsg :=
  (c, if c.hasStream then [WireMsg.rawMsg msg] else [])

/-! ## Inbound parsing helpers -/

/-- Rust `&s[n..]` as chars; `none` models the panic when `n` is past the
end or not a char boundary. -/
def drop_bytes : List Char → Nat → Option (List Char)
  | s, 0 => some s
  | [], _ + 1 => none
  | c :: cs, n + 1 =>
    if c.utf8Size ≤ n + 1 then drop_bytes cs (n + 1 - c.utf8Size) else none

/-- Byte index of the first occurrence of the ASCII char `t` in `s`
(`wire::find_byte`; for a byte < 0x80, byte search and char search agree). -/
def find_char_byte_idx : List Char → Char → Option Nat
  | [], _ => none
  | c :: cs, t =>
    if c = t then some 0 else (find_char_byte_idx cs t).map (fun i => i + c.utf8Size)

/-- `parse_servername` (`conn.rs` lines 774-780).  Outer `none` models the
`&msg[13..]` slicing panic; `some none` is the parse failure the caller
skips. -/
def parse_servername (params : List String) : Option (Option String) :=
  match params.get? 1 <|> params.get? 0 with
  | none => some none
  | some msg =>
    match drop_bytes msg.toList 13 with
    | none => none
    | some slice1 =>
      match (find_char_byte_idx slice1 '[').orElse (fun _ => find_char_byte_idx slice1 ',') with
      | none => some none
      | some ends => some (some (String.mk (take_bytes slice1 ends).1))

/-- Rust `str::trim` (Unicode whitespace from both ends). -/
def rust_trim (s : List Char) : List Char :=
  ((s.dropWhile rust_is_whitespace).reverse.dropWhile rust_is_whitespace).reverse

/-- The RPL_USERHOST (302) usermask extraction (`conn.rs` lines 643-659):
find the first `=`; if the next byte is `+` or `-`, advance one byte; take
the rest of the string from that index and trim it.  `none` is the
"can't parse" skip when no `=` exists. -/
def userhost_usermask (param : List Char) : Option (List Char) :=
  match param.findIdx? (fun ch => ch = '=') with
  | none => none
  | some j =>
    let rest := param.drop j
    let rest2 :=
      match rest with
      | _ :: s :: _ => if s = '+' ∨ s = '-' then rest.drop 1 else rest
      | _ => rest
    some (rust_trim rest2)

/-! ## Inbound dispatcher: `Conn::handle_msg` as a chain of arms

Each Rust `if let` block (`conn.rs` lines 535-770) becomes one arm; the arms
run in source order, all on the same message, each threading the connection
and appending its emissions.  `none` models a panic inside an arm. -/

/-- Sequencing of arms; short-circuits on panic. -/
def armSeq (s : Option Step) (f : Conn → Option Step) : Option Step :=
  match s with
  | none => none
  | some (c, w, e) =>
    match f c with
    | none => none
    | some (c2, w2, e2) => some (c2, w ++ w2, e ++ e2)

/-- CAP arm (`conn.rs` lines 536-568). -/
def capArm (m : Msg) (c : Conn) : Option Step :=
  match m.cmd with
  | .cap _ subcommand params =>
    if subcommand = "ACK" then
      some (c,
        if params.any (fun cap => cap = "sasl") ∧ c.hasStream
        then [WireMsg.authenticateMsg "PLAIN"] else [], [])
    else if subcommand = "NAK" then
      some (c, if c.hasStream then [WireMsg.capEndMsg] else [], [])
    else if subcommand = "LS" then
      if c.hasStream then
        match c.nicks.head? with
        | none => none
        | some n0 =>
          some (c, introduce none c.hostname c.realname n0 ++
            (if params.any (fun cap => cap = "sasl") then [WireMsg.capReqMsg ["sasl"]] else []),
            [])
      else some (c, [], [])
    else some (c, [], [])
  | _ => some (c, [], [])

/-- AUTHENTICATE arm (`conn.rs` lines 570-580) together with
`plain_sasl_authenticate`. -/
def authArm (m : Msg) (c : Conn) : Option Step :=
  match m.cmd with
  | .authenticate param =>
    if param = "+" then
      some (c,
        match c.sasl_auth with
        | some auth =>
          if c.hasStream then [WireMsg.authenticateCreds auth.username auth.password] else []
        | none => [], [])
    else some (c, [], [])
  | _ => some (c, [], [])

/-- 903/904 arm (`conn.rs` lines 582-588). -/
def saslResultArm (m : Msg) (c : Conn) : Option Step :=
  match m.cmd with
  | .reply num _ =>
    if num = 903 ∨ num = 904 then
      some (c, if c.hasStream then [WireMsg.capEndMsg] else [], [])
    else some (c, [], [])
  | _ => some (c, [], [])

/-- PING arm (`conn.rs` lines 590-598). -/
def pingArm (m : Msg) (c : Conn) : Option Step :=
  match m.cmd with
  | .ping server => some (c, if c.hasStream then [WireMsg.pongMsg server] else [], [])
  | _ => some (c, [], [])

/-- Self-JOIN arm (`conn.rs` lines 600-609). -/
def joinArm (m : Msg) (c : Conn) : Option Step :=
  match m.cmd, m.pfx with
  | .join _, some (.user nick user) =>
    match c.getNick with
    | none => none
    | some cur =>
      if nick = cur then
        some ({ c with usermask := some (nick ++ "!" ++ user) }, [], [])
      else some (c, [], [])
  | _, _ => some (c, [], [])

/-- Reply 396 arm (`conn.rs` lines 611-625). -/
def r396Arm (m : Msg) (c : Conn) : Option Step :=
  match m.cmd with
  | .reply num params =>
    if num = 396 ∧ params.length = 3 then
      match c.getNick with
      | none => none
      | some cur =>
        let um := cur ++ "!~" ++ c.hostname ++ "@" ++ params.getD 1 ""
        some ({ c with usermask := some um }, [], [])
    else some (c, [], [])
  | _ => some (c, [], [])

/-- Reply 302 arm (`conn.rs` lines 627-660); `none` models the `&params[1]`
index panic. -/
def r302Arm (m : Msg) (c : Conn) : Option Step :=
  match m.cmd with
  | .reply num params =>
    if num = 302 then
      match params.get? 1 with
    | none => none
    | some param =>
      match userhost_usermask param.toList with
      | none => some (c, [], [])
      | some um => some ({ c with usermask := some (String.mk um) }, [], [])
    else some (c, [], [])
  | _ => some (c, [], [])

/-- Reply 001 arm (`conn.rs` lines 662-672). -/
def r001Arm (m : Msg) (c : Conn) : Option Step :=
  match m.cmd with
  | .reply num _ =>
    if num = 1 then
      match c.getNick with
      | none => none
      | some cur =>
        some ({ c with nick_accepted := true }, c.nickservIdentMsgs,
          [ConnEv.connected, ConnEv.nickChange cur])
    else some (c, [], [])
  | _ => some (c, [], [])

/-- Reply 002 arm (`conn.rs` lines 674-698). -/
def r002Arm (m : Msg) (c : Conn) : Option Step :=
  match m.cmd with
  | .reply num params =>
    if num = 2 then
      match parse_servername params with
      | none => none
      | some none => some (c, [], [])
      | some (some servername) => some ({ c with servername := some servername }, [], [])
    else some (c, [], [])
  | _ => some (c, [], [])

/-- Reply 433 arm (`conn.rs` lines 700-709). -/
def r433Arm (m : Msg) (c : Conn) : Option Step :=
  match m.cmd with
  | .reply num _ =>
    if num = 433 then
      if c.nick_accepted then some (c, [], [])
      else
        match c.next_nick with
        | none => none
        | some (c2, w) => some (c2, w, [])
    else some (c, [], [])
  | _ => some (c, [], [])

/-- NICK arm (`conn.rs` lines 711-723). -/
def nickArm (m : Msg) (c : Conn) : Option Step :=
  match m.cmd, m.pfx with
  | .nick new_nick, some (.user old_nick _) =>
    match c.getNick with
    | none => none
    | some cur =>
      if old_nick = cur then
        match (c.set_nick new_nick).getNick with
        | none => none
        | some cur2 =>
          some (c.set_nick new_nick, (c.set_nick new_nick).nickservIdentMsgs,
            [ConnEv.nickChange cur2])
      else some (c, [], [])
  | _, _ => some (c, [], [])

/-- Reply 376 arm (`conn.rs` lines 725-749). -/
def r376Arm (m : Msg) (c : Conn) : Option Step :=
  match m.cmd with
  | .reply num _ =>
    if num = 376 ∧ c.hasStream then
      some (c,
        (if c.auto_join ≠ [] then [WireMsg.joinMsg c.auto_join] else []) ++
        (match c.away_status with
         | some reason => [WireMsg.awayMsg (some reason)]
         | none => []), [])
    else some (c, [], [])
  | _ => some (c, [], [])

/-- Reply 332 arm (`conn.rs` lines 751-767). -/
def r332Arm (m : Msg) (c : Conn) : Option Step :=
  match m.cmd with
  | .reply num params =>
    if num = 332 ∧ (params.length = 2 ∨ params.length = 3) then
      if c.auto_join.contains (params.getD (params.length - 2) "") then some (c, [], [])
      else some ({ c with auto_join := c.auto_join ++ [params.getD (params.length - 2) ""] },
        [], [])
    else some (c, [], [])
  | _ => some (c, [], [])

/-- The arms of `Conn::handle_msg`, in source order. -/
def arms (m : Msg) : List (Conn → Option Step) :=
  [capArm m, authArm m, saslResultArm m, pingArm m, joinArm m, r396Arm m,
   r302Arm m, r001Arm m, r002Arm m, r433Arm m, nickArm m, r376Arm m, r332Arm m]

/-- `Conn::handle_msg` (`conn.rs` lines 535-770): all arms in source order,
then the raw message event last. -/
def Conn.handle_msg (c : Conn) (m : Msg) : Option Step :=
  match (arms m).foldl armSeq (some (c, [], [])) with
  | none => none
  | some (c2, w, e) => some (c2, w, e ++ [ConnEv.msg m])

/-- `Conn::handle_msgs`: drain the queued messages in order. -/
def Conn.handle_msgs (c : Conn) : List Msg → Option Step
  | [] => some (c, [], [])
  | m :: rest =>
    match c.handle_msg m with
    | none => none
    | some (c1, w1, e1) =>
      match c1.handle_msgs rest with
      | none => none
      | some (c2, w2, e2) => some (c2, w1 ++ w2, e1 ++ e2)

/-- Outcome of `stream.read_ready(&mut read_buf)` combined with the codec:
an error (would-block or not), or success delivering the list of complete
messages the codec then extracts (possibly empty, e.g. a zero-byte read). -/
inductive ReadOutcome
  | err (wouldBlock : Bool)
  | ok (msgs : List Msg)
  deriving DecidableEq, Repr

/-- `Conn::read_ready` (`conn.rs` lines 510-527). -/
def Conn.read_ready (c : Conn) (o : ReadOutcome) : Option Step :=
  if c.hasStream then
    match o with
    | .err wouldBlock => some (c, [], if wouldBlock then [] else [ConnEv.err])
    | .ok msgs => c.reset_ticks.handle_msgs msgs
  else some (c, [], [])

/-! ## Message splitter budget (`Conn::split_privmsg`, `conn.rs` 419-446) -/

/-- The per-line byte budget, adapted from hexchat. -/
def split_budget (nickLen : Nat) (usermask : Option String) (extra_len : Int) : Int :=
  512 - 3 - 13 - (nickLen : Int) - extra_len -
    (match usermask with
     | none => 9 + 64
     | some u => (u.utf8ByteSize : Int))

/-- `Conn::split_privmsg`: compute the budget, assert it positive, split.
`none` models the assertion failure or a splitter panic. -/
def Conn.split_privmsg (c : Conn) (extra_len : Int) (msg : List Char) :
    Option (List (List Char)) := do
  let nick ← c.getNick
  let max := split_budget nick.utf8ByteSize c.usermask extra_len
  if 0 < max then split_iterator msg max.toNat else none

/-! ## Splitter lemmas -/

theorem ws_split_le (s : List Char) (max : Nat) : ws_split s max ≤ max := by
  unfold ws_split
  split
  · omega
  · rename_i p hp
    have := List.find?_some hp
    simp at this
    split <;> omega

theorem ws_indices_fwd_ofs_le (s : List Char) (ofs : Nat) :
    ∀ p ∈ ws_indices_fwd s ofs, ofs ≤ p.1 := by
  induction s generalizing ofs with
  | nil => intro p hp; simp [ws_indices_fwd] at hp
  | cons c cs ih =>
    intro p hp
    simp only [ws_indices_fwd, List.mem_append] at hp
    rcases hp with hp | hp
    · split at hp <;> simp at hp
      simp [hp]
    · have := ih (ofs + c.utf8Size) p hp
      omega

theorem ws_split_head_le (c : Char) (cs : List Char) (max : Nat)
    (hne : ws_split (c :: cs) max ≠ 0) :
    c.utf8Size ≤ ws_split (c :: cs) max := by
  unfold ws_split at hne ⊢
  cases hfind : (ws_indices_fwd (c :: cs) 0).reverse.find? (fun p => decide (p.1 ≤ max)) with
  | none => simp [hfind] at hne
  | some p =>
    simp only [hfind] at hne ⊢
    have hmem : p ∈ ws_indices_fwd (c :: cs) 0 :=
      List.mem_reverse.mp (List.mem_of_find?_eq_some hfind)
    have hofs : p.1 = 0 ∧ p.2 = c ∨ c.utf8Size ≤ p.1 := by
      simp only [ws_indices_fwd, List.mem_append] at hmem
      rcases hmem with hm | hm
      · left
        split at hm <;> simp at hm
        simp [hm]
      · right
        have := ws_indices_fwd_ofs_le cs (0 + c.utf8Size) p hm
        omega
    by_cases hcond : p.1 + p.2.utf8Size ≤ max
    · rw [if_pos hcond] at hne ⊢
      rcases hofs with ⟨h1, h2⟩ | h
      · rw [h2]
        omega
      · omega
    · rw [if_neg hcond] at hne ⊢
      rcases hofs with ⟨h1, h2⟩ | h
      · exact absurd h1 hne
      · exact h

theorem boundary_split_le (s : List Char) (max : Nat) : boundary_split s max ≤ max := by
  unfold boundary_split
  split_ifs <;> omega

theorem boundary_split_boundary (s : List Char) (max : Nat)
    (h : boundary_split s max ≠ 0) : is_char_boundary s (boundary_split s max) = true := by
  unfold boundary_split at *
  split_ifs at * <;> simp_all

theorem boundary_head_le (c : Char) (cs : List Char) (n : Nat)
    (h : is_char_boundary (c :: cs) n = true) (hn : n ≠ 0) : c.utf8Size ≤ n := by
  cases n with
  | zero => omega
  | succ m =>
    simp only [is_char_boundary] at h
    by_contra hc
    rw [if_neg (by omega)] at h
    exact Bool.false_ne_true h

/-- A char boundary exists in the window `[max-3, max]`, positive, provided
the head char fits in `max` and all chars are at most 4 bytes. -/
theorem bnd_exists (s : List Char) (max : Nat)
    (hhead : ∀ c0, s.head? = some c0 → c0.utf8Size ≤ max)
    (hlen : max < utf8Len s) :
    ∃ j, 1 ≤ j ∧ j ≤ max ∧ max - j ≤ 3 ∧ is_char_boundary s j = true := by
  induction s generalizing max with
  | nil => simp [utf8Len] at hlen
  | cons c cs ih =>
    have hc : c.utf8Size ≤ max := hhead c rfl
    have hcpos : 1 ≤ c.utf8Size := Char.utf8Size_pos c
    cases cs with
    | nil =>
      simp only [utf8Len_cons, utf8Len_nil] at hlen
      omega
    | cons c2 cs2 =>
      have hc2four : c2.utf8Size ≤ 4 := Char.utf8Size_le_four c2
      by_cases hcase : max < c.utf8Size + c2.utf8Size
      · refine ⟨c.utf8Size, hcpos, hc, by omega, ?_⟩
        have : c.utf8Size = (c.utf8Size - 1) + 1 := by omega
        rw [this]
        simp only [is_char_boundary]
        rw [if_pos (by omega)]
        have : c.utf8Size - 1 + 1 - c.utf8Size = 0 := by omega
        rw [this]
        exact is_char_boundary_zero _
      · push_neg at hcase
        have hlen2 : max - c.utf8Size < utf8Len (c2 :: cs2) := by
          simp only [utf8Len_cons] at hlen ⊢
          omega
        obtain ⟨j, hj1, hj2, hj3, hj4⟩ := ih (max - c.utf8Size)
          (by
            intro c0 hc0
            simp at hc0
            rw [← hc0]
            omega) hlen2
        refine ⟨j + c.utf8Size, by omega, by omega, by omega, ?_⟩
        have : j + c.utf8Size = (j + c.utf8Size - 1) + 1 := by omega
        rw [this]
        simp only [is_char_boundary]
        rw [if_pos (by omega)]
        have : j + c.utf8Size - 1 + 1 - c.utf8Size = j := by omega
        rw [this]
        exact hj4

theorem boundary_split_pos (s : List Char) (max : Nat)
    (hall : ∀ ch ∈ s, ch.utf8Size ≤ max)
    (hmax : 1 ≤ max) (hlen : max < utf8Len s) :
    1 ≤ boundary_split s max := by
  have hhead : ∀ c0, s.head? = some c0 → c0.utf8Size ≤ max := by
    intro c0 hc0
    cases s with
    | nil => simp at hc0
    | cons c cs =>
      simp at hc0
      rw [← hc0]
      exact hall c (by simp)
  obtain ⟨j, hj1, hj2, hj3, hj4⟩ := bnd_exists s max hhead hlen
  unfold boundary_split
  split_ifs with h1 h2 h3 h4
  · omega
  · -- `j ≠ max` since `is_char_boundary s max = false`
    have : j ≠ max := fun h => h1 (h ▸ hj4)
    omega
  · have e1 : j ≠ max := fun h => h1 (h ▸ hj4)
    have e2 : j ≠ max - 1 := fun h => h2 (h ▸ hj4)
    omega
  · have e1 : j ≠ max := fun h => h1 (h ▸ hj4)
    have e2 : j ≠ max - 1 := fun h => h2 (h ▸ hj4)
    have e3 : j ≠ max - 2 := fun h => h3 (h ▸ hj4)
    omega
  · exfalso
    have e1 : j ≠ max := fun h => h1 (h ▸ hj4)
    have e2 : j ≠ max - 1 := fun h => h2 (h ▸ hj4)
    have e3 : j ≠ max - 2 := fun h => h3 (h ▸ hj4)
    have e4 : j ≠ max - 3 := fun h => h4 (h ▸ hj4)
    omega

theorem split_next_concat (s : List Char) (max : Nat) (p : List Char × List Char)
    (h : split_next s max = some p) : p.1 ++ p.2 = s := by
  simp only [split_next] at h
  split at h
  · split at h
    · exact absurd h (by simp)
    · simp only [Option.some.injEq] at h
      subst h
      exact take_bytes_concat s _
  · simp only [Option.some.injEq] at h
    subst h
    exact take_bytes_concat s _

theorem split_next_fst_le (s : List Char) (max : Nat) (p : List Char × List Char)
    (h : split_next s max = some p) : utf8Len p.1 ≤ max := by
  simp only [split_next] at h
  split at h
  · split at h
    · exact absurd h (by simp)
    · simp only [Option.some.injEq] at h
      subst h
      exact le_trans (take_bytes_fst_len s _) (boundary_split_le s max)
  · simp only [Option.some.injEq] at h
    subst h
    exact le_trans (take_bytes_fst_len s _) (ws_split_le s max)

theorem split_next_progress (s : List Char) (max : Nat)
    (hall : ∀ ch ∈ s, ch.utf8Size ≤ max) (hmax : 1 ≤ max) (hlen : max < utf8Len s) :
    ∃ p, split_next s max = some p ∧ p.2.length < s.length := by
  cases s with
  | nil => simp [utf8Len] at hlen
  | cons c cs =>
    have hc : c.utf8Size ≤ max := hall c (by simp)
    simp only [split_next]
    by_cases hws : ws_split (c :: cs) max = 0
    · have hb : 1 ≤ boundary_split (c :: cs) max :=
        boundary_split_pos (c :: cs) max hall hmax hlen
      have hbhead : c.utf8Size ≤ boundary_split (c :: cs) max :=
        boundary_head_le c cs _ (boundary_split_boundary _ _ (by omega)) (by omega)
      rw [if_pos hws, if_neg (by omega)]
      exact ⟨take_bytes (c :: cs) (boundary_split (c :: cs) max), rfl,
        take_bytes_snd_lt c cs _ hbhead hb⟩
    · have hhead : c.utf8Size ≤ ws_split (c :: cs) max := ws_split_head_le c cs max hws
      rw [if_neg hws, if_neg hws]
      exact ⟨take_bytes (c :: cs) (ws_split (c :: cs) max), rfl,
        take_bytes_snd_lt c cs _ hhead (by omega)⟩

theorem split_go_flatten (fuel : Nat) (s : List Char) (max : Nat)
    (l : List (List Char)) (h : split_go fuel s max = some l) : l.flatten = s := by
  induction fuel generalizing s l with
  | zero => simp [split_go] at h
  | succ fuel ih =>
    simp only [split_go] at h
    split at h
    · simp only [Option.some.injEq] at h
      subst h
      simp
    · cases hsn : split_next s max with
      | none =>
        simp only [hsn] at h
        exact absurd h (by simp)
      | some p =>
        obtain ⟨a, b⟩ := p
        simp only [hsn, Option.map_eq_some'] at h
        obtain ⟨l2, hl2, rfl⟩ := h
        have := split_next_concat s max (a, b) hsn
        simp only [List.flatten_cons, ih b l2 hl2]
        simpa using this

theorem split_go_len (fuel : Nat) (s : List Char) (max : Nat)
    (l : List (List Char)) (h : split_go fuel s max = some l) :
    ∀ x ∈ l, utf8Len x ≤ max := by
  induction fuel generalizing s l with
  | zero => simp [split_go] at h
  | succ fuel ih =>
    simp only [split_go] at h
    split at h
    · rename_i hle
      simp only [Option.some.injEq] at h
      subst h
      intro x hx
      simp at hx
      simpa [hx] using hle
    · cases hsn : split_next s max with
      | none =>
        simp only [hsn] at h
        exact absurd h (by simp)
      | some p =>
        obtain ⟨a, b⟩ := p
        simp only [hsn, Option.map_eq_some'] at h
        obtain ⟨l2, hl2, rfl⟩ := h
        intro x hx
        simp only [List.mem_cons] at hx
        rcases hx with rfl | hx
        · exact split_next_fst_le s max _ hsn
        · exact ih b l2 hl2 x hx

theorem split_go_isSome (fuel : Nat) (s : List Char) (max : Nat)
    (hall : ∀ ch ∈ s, ch.utf8Size ≤ max) (hmax : 1 ≤ max) (hfuel : s.length < fuel) :
    (split_go fuel s max).isSome := by
  induction fuel generalizing s with
  | zero => omega
  | succ fuel ih =>
    simp only [split_go]
    split
    · simp
    · rename_i hgt
      push_neg at hgt
      obtain ⟨p, hp, hlt⟩ := split_next_progress s max hall hmax hgt
      rw [hp]
      obtain ⟨a, b⟩ := p
      have hab : a ++ b = s := split_next_concat s max (a, b) hp
      have hallb : ∀ ch ∈ b, ch.utf8Size ≤ max := by
        intro ch hch
        exact hall ch (hab ▸ List.mem_append_right a hch)
      have := ih b hallb (by simp at hlt ⊢; omega)
      simp only [Option.isSome_map']
      exact this

/-- Soundness of the full splitter run: if every char of `s` fits in the
budget, the iterator completes, every slice fits in the budget and the
slices concatenate back to `s`. -/
theorem split_iterator_sound (s : List Char) (max : Nat)
    (hmax : 1 ≤ max) (hall : ∀ ch ∈ s, ch.utf8Size ≤ max) :
    ∃ l, split_iterator s max = some l ∧ (∀ x ∈ l, utf8Len x ≤ max) ∧ l.flatten = s := by
  unfold split_iterator
  rw [if_neg (by omega)]
  have hs := split_go_isSome (s.length + 1) s max hall hmax (by omega)
  obtain ⟨l, hl⟩ := Option.isSome_iff_exists.mp hs
  exact ⟨l, hl, split_go_len _ s max l hl, split_go_flatten _ s max l hl⟩

/-! ## Dispatcher preservation lemmas -/

/-- The nick-index invariant of the spec: `0 ≤ current_nick_idx < |nicks|`
(the lower bound is free for `Nat`). -/
def nickIdxInv (c : Conn) : Prop := c.current_nick_idx < c.nicks.length

theorem set_nick_status (c : Conn) (n : String) :
    (c.set_nick n).conn_status = c.conn_status := by
  unfold Conn.set_nick
  split <;> rfl

theorem set_nick_inv (c : Conn) (n : String) (h : nickIdxInv c) :
    nickIdxInv (c.set_nick n) := by
  unfold Conn.set_nick nickIdxInv
  cases hf : c.nicks.findIdx? (fun x => x = n) with
  | some i =>
    have := (List.findIdx?_eq_some_iff_findIdx_eq.mp hf).1
    simpa using this
  | none => simp

theorem next_nick_status (c : Conn) (r : Conn × List WireMsg)
    (h : c.next_nick = some r) : r.1.conn_status = c.conn_status := by
  unfold Conn.next_nick at h
  split at h
  · split at h
    · exact Option.noConfusion h
    · simp only [Option.some.injEq] at h
      subst h
      rfl
  · simp only [Option.some.injEq] at h
    subst h
    rfl

theorem next_nick_inv (c : Conn) (r : Conn × List WireMsg)
    (hinv : nickIdxInv c) (h : c.next_nick = some r) : nickIdxInv r.1 := by
  unfold Conn.next_nick at h
  unfold nickIdxInv at *
  split at h
  · rename_i heq
    split at h
    · exact Option.noConfusion h
    · simp only [Option.some.injEq] at h
      subst h
      simp
      omega
  · rename_i hne
    simp only [Option.some.injEq] at h
    subst h
    simp
    omega

theorem next_nick_isSome (c : Conn) : c.next_nick.isSome := by
  unfold Conn.next_nick
  split
  · rename_i heq
    cases hl : c.nicks.getLast? with
    | none =>
      rw [List.getLast?_eq_none_iff] at hl
      rw [hl] at heq
      simp at heq
    | some last => simp
  · simp

/-- The preservation property every dispatcher arm satisfies: the link state
is untouched, and the nick-index invariant is preserved. -/
def ArmOk (f : Conn → Option Step) : Prop :=
  ∀ c r, f c = some r →
    r.1.conn_status = c.conn_status ∧ (nickIdxInv c → nickIdxInv r.1)

theorem capArm_ok (m : Msg) : ArmOk (capArm m) := by
  intro c r h
  unfold capArm at h
  repeat' split at h
  all_goals try exact Option.noConfusion h
  all_goals
    simp only [Option.some.injEq] at h
    subst h
    exact ⟨rfl, fun hi => hi⟩

theorem authArm_ok (m : Msg) : ArmOk (authArm m) := by
  intro c r h
  unfold authArm at h
  repeat' split at h
  all_goals try exact Option.noConfusion h
  all_goals
    simp only [Option.some.injEq] at h
    subst h
    exact ⟨rfl, fun hi => hi⟩

theorem saslResultArm_ok (m : Msg) : ArmOk (saslResultArm m) := by
  intro c r h
  unfold saslResultArm at h
  repeat' split at h
  all_goals try exact Option.noConfusion h
  all_goals
    simp only [Option.some.injEq] at h
    subst h
    exact ⟨rfl, fun hi => hi⟩

theorem pingArm_ok (m : Msg) : ArmOk (pingArm m) := by
  intro c r h
  unfold pingArm at h
  repeat' split at h
  all_goals try exact Option.noConfusion h
  all_goals
    simp only [Option.some.injEq] at h
    subst h
    exact ⟨rfl, fun hi => hi⟩

theorem joinArm_ok (m : Msg) : ArmOk (joinArm m) := by
  intro c r h
  unfold joinArm at h
  repeat' split at h
  all_goals try exact Option.noConfusion h
  all_goals
    simp only [Option.some.injEq] at h
    subst h
    exact ⟨rfl, fun hi => hi⟩

theorem r396Arm_ok (m : Msg) : ArmOk (r396Arm m) := by
  intro c r h
  unfold r396Arm at h
  repeat' split at h
  all_goals try exact Option.noConfusion h
  all_goals
    simp only [Option.some.injEq] at h
    subst h
    exact ⟨rfl, fun hi => hi⟩

theorem r302Arm_ok (m : Msg) : ArmOk (r302Arm m) := by
  intro c r h
  unfold r302Arm at h
  repeat' split at h
  all_goals try exact Option.noConfusion h
  all_goals
    simp only [Option.some.injEq] at h
    subst h
    exact ⟨rfl, fun hi => hi⟩

theorem r001Arm_ok (m : Msg) : ArmOk (r001Arm m) := by
  intro c r h
  unfold r001Arm at h
  repeat' split at h
  all_goals try exact Option.noConfusion h
  all_goals
    simp only [Option.some.injEq] at h
    subst h
    exact ⟨rfl, fun hi => hi⟩

theorem r002Arm_ok (m : Msg) : ArmOk (r002Arm m) := by
  intro c r h
  unfold r002Arm at h
  repeat' split at h
  all_goals try exact Option.noConfusion h
  all_goals
    simp only [Option.some.injEq] at h
    subst h
    exact ⟨rfl, fun hi => hi⟩

theorem r433Arm_ok (m : Msg) : ArmOk (r433Arm m) := by
  intro c r h
  unfold r433Arm at h
  split at h
  · split at h
    · split at h
      · simp only [Option.some.injEq] at h
        subst h
        exact ⟨rfl, fun hi => hi⟩
      · cases hnn : c.next_nick with
        | none =>
          rw [hnn] at h
          exact Option.noConfusion h
        | some p =>
          obtain ⟨c2, w⟩ := p
          rw [hnn] at h
          simp only [Option.some.injEq] at h
          subst h
          exact ⟨next_nick_status c (c2, w) hnn,
            fun hi => next_nick_inv c (c2, w) hi hnn⟩
    · simp only [Option.some.injEq] at h
      subst h
      exact ⟨rfl, fun hi => hi⟩
  · simp only [Option.some.injEq] at h
    subst h
    exact ⟨rfl, fun hi => hi⟩

theorem nickArm_ok (m : Msg) : ArmOk (nickArm m) := by
  intro c r h
  unfold nickArm at h
  repeat' split at h
  all_goals try exact Option.noConfusion h
  all_goals
    simp only [Option.some.injEq] at h
    subst h
  all_goals
    first
      | exact ⟨rfl, fun hi => hi⟩
      | exact ⟨set_nick_status c _, fun hi => set_nick_inv c _ hi⟩

theorem r376Arm_ok (m : Msg) : ArmOk (r376Arm m) := by
  intro c r h
  unfold r376Arm at h
  repeat' split at h
  all_goals try exact Option.noConfusion h
  all_goals
    simp only [Option.some.injEq] at h
    subst h
    exact ⟨rfl, fun hi => hi⟩

theorem r332Arm_ok (m : Msg) : ArmOk (r332Arm m) := by
  intro c r h
  unfold r332Arm at h
  repeat' split at h
  all_goals try exact Option.noConfusion h
  all_goals
    simp only [Option.some.injEq] at h
    subst h
    exact ⟨rfl, fun hi => hi⟩

theorem arms_ok (m : Msg) : ∀ f ∈ arms m, ArmOk f := by
  intro f hf
  simp only [arms, List.mem_cons, List.not_mem_nil, or_false] at hf
  rcases hf with rfl | rfl | rfl | rfl | rfl | rfl | rfl | rfl | rfl | rfl | rfl | rfl | rfl
  · exact capArm_ok m
  · exact authArm_ok m
  · exact saslResultArm_ok m
  · exact pingArm_ok m
  · exact joinArm_ok m
  · exact r396Arm_ok m
  · exact r302Arm_ok m
  · exact r001Arm_ok m
  · exact r002Arm_ok m
  · exact r433Arm_ok m
  · exact nickArm_ok m
  · exact r376Arm_ok m
  · exact r332Arm_ok m

theorem foldl_armSeq_none (fs : List (Conn → Option Step)) :
    fs.foldl armSeq none = none := by
  induction fs with
  | nil => rfl
  | cons f fs ih => simpa [List.foldl, armSeq] using ih

theorem foldl_armSeq_ok (fs : List (Conn → Option Step))
    (hfs : ∀ f ∈ fs, ArmOk f) :
    ∀ c0 w0 e0 r, fs.foldl armSeq (some (c0, w0, e0)) = some r →
      r.1.conn_status = c0.conn_status ∧ (nickIdxInv c0 → nickIdxInv r.1) := by
  induction fs with
  | nil =>
    intro c0 w0 e0 r h
    simp only [List.foldl, Option.some.injEq] at h
    subst h
    exact ⟨rfl, fun hi => hi⟩
  | cons f fs ih =>
    intro c0 w0 e0 r h
    simp only [List.foldl] at h
    cases hsf : armSeq (some (c0, w0, e0)) f with
    | none =>
      rw [hsf, foldl_armSeq_none] at h
      exact Option.noConfusion h
    | some st =>
      obtain ⟨c1, w1, e1⟩ := st
      rw [hsf] at h
      have h1 := ih (fun g hg => hfs g (List.mem_cons_of_mem f hg)) c1 w1 e1 r h
      have h0 : c1.conn_status = c0.conn_status ∧ (nickIdxInv c0 → nickIdxInv c1) := by
        simp only [armSeq] at hsf
        cases hf0 : f c0 with
        | none =>
          rw [hf0] at hsf
          exact Option.noConfusion hsf
        | some st2 =>
          obtain ⟨c2, w2, e2⟩ := st2
          simp only [hf0, Option.some.injEq] at hsf
          obtain ⟨rfl, -, -⟩ := hsf
          exact hfs f (List.mem_cons_self f fs) c0 (c1, w2, e2) hf0
      exact ⟨h1.1.trans h0.1, fun hi => h1.2 (h0.2 hi)⟩

theorem handle_msg_status (c : Conn) (m : Msg) (r : Step)
    (h : c.handle_msg m = some r) : r.1.conn_status = c.conn_status := by
  unfold Conn.handle_msg at h
  cases hfold : (arms m).foldl armSeq (some (c, [], [])) with
  | none =>
    rw [hfold] at h
    exact Option.noConfusion h
  | some st =>
    obtain ⟨c2, w, e⟩ := st
    rw [hfold] at h
    simp only [Option.some.injEq] at h
    subst h
    exact (foldl_armSeq_ok (arms m) (arms_ok m) c [] [] (c2, w, e) hfold).1

theorem handle_msg_inv (c : Conn) (m : Msg) (r : Step)
    (hinv : nickIdxInv c) (h : c.handle_msg m = some r) : nickIdxInv r.1 := by
  unfold Conn.handle_msg at h
  cases hfold : (arms m).foldl armSeq (some (c, [], [])) with
  | none =>
    rw [hfold] at h
    exact Option.noConfusion h
  | some st =>
    obtain ⟨c2, w, e⟩ := st
    rw [hfold] at h
    simp only [Option.some.injEq] at h
    subst h
    exact (foldl_armSeq_ok (arms m) (arms_ok m) c [] [] (c2, w, e) hfold).2 hinv

theorem handle_msgs_nil (c : Conn) : c.handle_msgs [] = some (c, [], []) := rfl

theorem handle_msgs_cons (c : Conn) (m : Msg) (rest : List Msg) :
    c.handle_msgs (m :: rest) =
      match c.handle_msg m with
      | none => none
      | some (c1, w1, e1) =>
        match c1.handle_msgs rest with
        | none => none
        | some (c2, w2, e2) => some (c2, w1 ++ w2, e1 ++ e2) := rfl

theorem handle_msgs_status (c : Conn) (msgs : List Msg) (r : Step)
    (h : c.handle_msgs msgs = some r) : r.1.conn_status = c.conn_status := by
  induction msgs generalizing c r with
  | nil =>
    rw [handle_msgs_nil] at h
    simp only [Option.some.injEq] at h
    subst h
    rfl
  | cons m rest ih =>
    rw [handle_msgs_cons] at h
    cases h1 : c.handle_msg m with
    | none =>
      simp only [h1] at h
      exact Option.noConfusion h
    | some s1 =>
      obtain ⟨c1, w1, e1⟩ := s1
      simp only [h1] at h
      cases h2 : c1.handle_msgs rest with
      | none =>
        simp only [h2] at h
        exact Option.noConfusion h
      | some s2 =>
        obtain ⟨c2, w2, e2⟩ := s2
        simp only [h2, Option.some.injEq] at h
        subst h
        exact (ih c1 (c2, w2, e2) h2).trans (handle_msg_status c m (c1, w1, e1) h1)

theorem handle_msgs_inv (c : Conn) (msgs : List Msg) (r : Step)
    (hinv : nickIdxInv c) (h : c.handle_msgs msgs = some r) : nickIdxInv r.1 := by
  induction msgs generalizing c r with
  | nil =>
    rw [handle_msgs_nil] at h
    simp only [Option.some.injEq] at h
    subst h
    exact hinv
  | cons m rest ih =>
    rw [handle_msgs_cons] at h
    cases h1 : c.handle_msg m with
    | none =>
      simp only [h1] at h
      exact Option.noConfusion h
    | some s1 =>
      obtain ⟨c1, w1, e1⟩ := s1
      simp only [h1] at h
      cases h2 : c1.handle_msgs rest with
      | none =>
        simp only [h2] at h
        exact Option.noConfusion h
      | some s2 =>
        obtain ⟨c2, w2, e2⟩ := s2
        simp only [h2, Option.some.injEq] at h
        subst h
        exact ih c1 (c2, w2, e2) (handle_msg_inv c m (c1, w1, e1) hinv h1) h2

theorem reset_ticks_fields (c : Conn) :
    c.reset_ticks.nicks = c.nicks ∧ c.reset_ticks.current_nick_idx = c.current_nick_idx := by
  unfold Conn.reset_ticks
  split <;> exact ⟨rfl, rfl⟩

theorem reset_ticks_status (c : Conn) (hs : c.hasStream = true) :
    c.reset_ticks.conn_status = ConnStatus.pingPong 0 := by
  unfold Conn.hasStream at hs
  unfold Conn.reset_ticks
  cases hc : c.conn_status <;> rw [hc] at hs <;> simp_all

theorem reset_ticks_inv (c : Conn) (h : nickIdxInv c) : nickIdxInv c.reset_ticks := by
  unfold nickIdxInv at *
  rw [(reset_ticks_fields c).1, (reset_ticks_fields c).2]
  exact h

theorem tick_inv (c : Conn) (h : nickIdxInv c) : nickIdxInv (Conn.tick c).1 := by
  unfold nickIdxInv at *
  unfold Conn.tick
  cases hc : c.conn_status
  · dsimp only
    split
    · cases hs : c.servername <;> simp <;> omega
    · simp
      omega
  · dsimp only
    split
    · simp
      omega
    · simp
      omega
  · dsimp only
    split
    · simp
      omega
    · simp
      omega

theorem new_inv (server : ServerConfig) (r : Conn × List WireMsg)
    (hne : server.nicks ≠ []) (h : Conn.new server = some r) : nickIdxInv r.1 := by
  unfold Conn.new at h
  unfold nickIdxInv
  cases hsa : server.sasl_auth with
  | some a =>
    simp only [hsa, Option.pure_def, Option.bind_eq_bind, Option.some_bind, Option.some.injEq] at h
    subst h
    simp [List.length_pos]
    exact hne
  | none =>
    cases hh : server.nicks.head? with
    | none =>
      rw [List.head?_eq_none_iff] at hh
      exact absurd hh hne
    | some n0 =>
      simp only [hsa, hh, Option.pure_def, Option.bind_eq_bind, Option.some_bind, Option.some.injEq] at h
      subst h
      simp [List.length_pos]
      exact hne

theorem reconnect_base_fields (c : Conn) (ns : Option (String × Nat)) :
    (reconnect_base c ns).nicks = c.nicks ∧
    (reconnect_base c ns).current_nick_idx = c.current_nick_idx := by
  unfold reconnect_base
  cases ns with
  | none => exact ⟨rfl, rfl⟩
  | some p =>
    obtain ⟨a, b⟩ := p
    exact ⟨rfl, rfl⟩

theorem reconnect_inv (c : Conn) (ns : Option (String × Nat)) (ok : Bool)
    (r : Conn × List WireMsg) (hinv : nickIdxInv c)
    (h : c.reconnect ns ok = some r) : nickIdxInv r.1 := by
  unfold nickIdxInv at *
  cases ns with
  | none =>
    unfold Conn.reconnect reconnect_base at h
    repeat' split at h
    all_goals try exact Option.noConfusion h
    all_goals
      simp only [Option.some.injEq] at h
      subst h
    all_goals simp
    all_goals omega
  | some p =>
    obtain ⟨nm, pt⟩ := p
    unfold Conn.reconnect reconnect_base at h
    repeat' split at h
    all_goals try exact Option.noConfusion h
    all_goals
      simp only [Option.some.injEq] at h
      subst h
    all_goals simp
    all_goals omega

theorem read_ready_inv (c : Conn) (o : ReadOutcome) (r : Step)
    (hinv : nickIdxInv c) (h : c.read_ready o = some r) : nickIdxInv r.1 := by
  unfold Conn.read_ready at h
  split at h
  · cases o with
    | err wb =>
      simp only [Option.some.injEq] at h
      subst h
      exact hinv
    | ok msgs =>
      exact handle_msgs_inv c.reset_ticks msgs r (reset_ticks_inv c hinv) h
  · simp only [Option.some.injEq] at h
    subst h
    exact hinv

/-! ## Concrete connections and messages used as witness inputs -/

/-- A concrete well-formed connection (live stream, known servername). -/
def connEx : Conn :=
  { serv_addr := "srv"
    serv_port := 6667
    tls := false
    hostname := "h"
    realname := "r"
    pass := none
    nicks := ["a", "b"]
    current_nick_idx := 1
    auto_join := []
    nickserv_ident := none
    away_status := none
    servername := some "irc.example"
    usermask := none
    conn_status := ConnStatus.pingPong 0
    sasl_auth := none
    nick_accepted := true }

/-- `connEx` one tick before the PING threshold, with no servername. -/
def c1ex : Conn := { connEx with conn_status := ConnStatus.pingPong 59, servername := none }

/-- A disconnected connection with one auto-join channel. -/
def c2ex : Conn := { connEx with conn_status := ConnStatus.disconnected 0, auto_join := ["#chan"] }

/-- A connection whose nick and usermask make tiny privmsg budgets possible. -/
def c3ex : Conn := { connEx with nicks := ["n"], current_nick_idx := 0, usermask := some "u!a@b" }

/-- The input on which "whichever of `[` or `,` occurs first" and the code
disagree: the `,` comes first, the code still cuts at `[`. -/
def c4params : List String := ["x", "Your host is a,b[c"]

/-- A connection with a configured server password. -/
def c5ex : Conn := { connEx with pass := some "pw" }

/-- A CAP LS frame advertising sasl. -/
def c5msg : Msg := { pfx := none, cmd := Cmd.cap "*" "LS" ["sasl"] }

/-- A connection in the registration phase: first nick, no 001 yet. -/
def c6ex : Conn := { connEx with current_nick_idx := 0, nick_accepted := false }

/-- A 433 ERR_NICKNAMEINUSE reply. -/
def m433 : Msg := { pfx := none, cmd := Cmd.reply 433 [] }

/-- `c6ex` after the first 433 (index advanced to "b", nothing sent). -/
def c6ex1 : Conn := { c6ex with current_nick_idx := 1 }

/-- `c6ex` after the second 433 ("b_" appended and sent). -/
def c6ex2 : Conn := { c6ex with nicks := ["a", "b", "b_"], current_nick_idx := 2 }

/-- `c6ex` after the third 433 ("b__" appended and sent). -/
def c6ex3 : Conn := { c6ex with nicks := ["a", "b", "b_", "b__"], current_nick_idx := 3 }

/-- A 002 reply whose text is shorter than the 13 bytes the parser skips. -/
def c8msgA : Msg := { pfx := none, cmd := Cmd.reply 2 ["tiny_test", "Your host"] }

/-- A 302 reply with no `params[1]`. -/
def c8msgB : Msg := { pfx := none, cmd := Cmd.reply 302 [] }

/-- A connection awaiting a PONG, mid-count. -/
def c10ex : Conn := { connEx with conn_status := ConnStatus.waitPong 17 }

/-- Modelled from the spec: servername extraction whose prefix ends at the
first `[` or `,`, whichever of the two occurs first in the text (the spec
reading of the claim, to compare with `parse_servername`). -/
def parse_servername_spec (params : List String) : Option String :=
  match params.get? 1 <|> params.get? 0 with
  | none => none
  | some msg =>
    match drop_bytes msg.toList 13 with
    | none => none
    | some slice1 =>
      match find_char_byte_idx slice1 '[', find_char_byte_idx slice1 ',' with
      | none, none => none
      | some i, none => some (String.mk (take_bytes slice1 i).1)
      | none, some j => some (String.mk (take_bytes slice1 j).1)
      | some i, some j => some (String.mk (take_bytes slice1 (min i j)).1)

/-! ## Claim C1 -/

/-- C1 counterexample: in `PingPong{59}` with no servername, `tick` moves to
`WaitPong{0}` — it does not stay in `PingPong` as the claim states (it does
emit nothing). -/
theorem C1_cex :
    (Conn.tick c1ex).1.conn_status = ConnStatus.waitPong 0 ∧
    (Conn.tick c1ex).1.conn_status ≠ ConnStatus.pingPong 60 ∧
    (Conn.tick c1ex).2.1 = [] ∧ (Conn.tick c1ex).2.2 = [] := by
  refine ⟨rfl, ?_, rfl, rfl⟩
  decide

/-- C1 (amended): a `tick` in state `PingPong{ticks}` with
`ticks+1 = PING_TICKS` while `servername` is `None` still transitions to
`WaitPong{0}`; it merely emits nothing (it cannot PING). -/
theorem C1_thm (c : Conn) (t : Nat) (hst : c.conn_status = ConnStatus.pingPong t)
    (h60 : (t + 1) % 256 = 60) (hsn : c.servername = none) :
    Conn.tick c = ({ c with conn_status := ConnStatus.waitPong 0 }, [], []) := by
  unfold Conn.tick
  rw [hst]
  simp [h60, hsn]

/-- C1 witness. -/
theorem C1_wit :
    Conn.tick c1ex = ({ c1ex with conn_status := ConnStatus.waitPong 0 }, [], []) :=
  C1_thm c1ex 59 rfl (by decide) rfl

/-! ## Claim C2 -/

/-- C2 counterexample: in `Disconnected`, `part` emits nothing but it does
change session state — the channel is removed from `auto_join`, so the
outbound API is not a complete no-op. -/
theorem C2_cex :
    c2ex.auto_join = ["#chan"] ∧
    (Conn.part c2ex "#chan").2 = [] ∧
    (Conn.part c2ex "#chan").1.auto_join = [] ∧
    (Conn.part c2ex "#chan").1 ≠ c2ex := by
  refine ⟨rfl, rfl, rfl, ?_⟩
  decide

/-- C2 (amended): with `link_state = Disconnected` every outbound call emits
nothing on the wire; `send_nick`, `privmsg`, `ctcp_action`, `join` and
`raw_msg` leave the connection unchanged, but `part` still removes the
channel from `auto_join` and `away` still records `away_status`. -/
theorem C2_thm (c : Conn) (hs : c.hasStream = false) :
    (∀ n, c.send_nick n = (c, [])) ∧
    (∀ t m, c.privmsg t m = (c, [])) ∧
    (∀ t m, c.ctcp_action t m = (c, [])) ∧
    (∀ chs, c.join chs = (c, [])) ∧
    (∀ m, c.raw_msg m = (c, [])) ∧
    (∀ ch, c.part ch =
      ({ c with auto_join := c.auto_join.filter (fun x => x ≠ ch) }, [])) ∧
    (∀ m, c.away m = ({ c with away_status := m }, [])) := by
  unfold Conn.send_nick Conn.privmsg Conn.ctcp_action Conn.join Conn.raw_msg Conn.part Conn.away
  rw [hs]
  simp

/-- C2 witness. -/
theorem C2_wit :
    (∀ n, c2ex.send_nick n = (c2ex, [])) ∧
    (∀ t m, c2ex.privmsg t m = (c2ex, [])) ∧
    (∀ t m, c2ex.ctcp_action t m = (c2ex, [])) ∧
    (∀ chs, c2ex.join chs = (c2ex, [])) ∧
    (∀ m, c2ex.raw_msg m = (c2ex, [])) ∧
    (∀ ch, c2ex.part ch =
      ({ c2ex with auto_join := c2ex.auto_join.filter (fun x => x ≠ ch) }, [])) ∧
    (∀ m, c2ex.away m = ({ c2ex with away_status := m }, [])) :=
  C2_thm c2ex rfl

/-! ## Claim C4 -/

/-- C4 counterexample: on a text where a `,` occurs before the `[`, the code
cuts at the `[` (yielding "a,b"), not at the first of the two as the claim
states (which would yield "a"). -/
theorem C4_cex :
    parse_servername c4params = some (some "a,b") ∧
    parse_servername_spec c4params = some "a" ∧
    ("a,b" : String) ≠ "a" := by
  refine ⟨rfl, rfl, ?_⟩
  decide

/-- C4 (amended): the servername is `params[1]` (falling back to
`params[0]`) after skipping 13 bytes, cut at the first `[` when one occurs
anywhere in the text, and otherwise at the first `,`; on the S1 input this
yields "adams.freenode.net" and on the S2 input "belew.mozilla.org". -/
theorem C4_thm :
    parse_servername ["tiny_test",
      "Your host is adams.freenode.net[94.125.182.252/8001], running version ircd-seven-1.1.4"] =
      some (some "adams.freenode.net") ∧
    parse_servername ["tiny_test",
      "Your host is belew.mozilla.org, running version InspIRCd-2.0"] =
      some (some "belew.mozilla.org") ∧
    parse_servername c4params = some (some "a,b") :=
  ⟨rfl, rfl, rfl⟩

/-! ## Claim C7 -/

set_option maxRecDepth 40000 in
/-- C7: the literal S6 tick cycle.  From `PingPong{0}` with servername
"irc.example": 59 ticks emit nothing, the 60th emits the single PING and
lands in `WaitPong{0}`; 60 further ticks emit `Disconnected`, clear
`nick_accepted` and land in `Disconnected{0}`; 30 further ticks emit
`WantReconnect` and reset `current_nick_idx` to 0. -/
theorem C7_thm :
    (runTicks connEx 59).2.1 = [] ∧
    (runTicks connEx 59).2.2 = [] ∧
    (runTicks connEx 59).1.conn_status = ConnStatus.pingPong 59 ∧
    (runTicks connEx 60).1.conn_status = ConnStatus.waitPong 0 ∧
    (runTicks connEx 60).2.1 = [WireMsg.pingMsg "irc.example"] ∧
    (runTicks connEx 60).2.2 = [] ∧
    (runTicks connEx 119).2.2 = [] ∧
    (runTicks connEx 120).1.conn_status = ConnStatus.disconnected 0 ∧
    (runTicks connEx 120).1.nick_accepted = false ∧
    (runTicks connEx 120).2.1 = [WireMsg.pingMsg "irc.example"] ∧
    (runTicks connEx 120).2.2 = [ConnEv.disconnected] ∧
    (runTicks connEx 149).2.2 = [ConnEv.disconnected] ∧
    (runTicks connEx 150).2.1 = [WireMsg.pingMsg "irc.example"] ∧
    (runTicks connEx 150).2.2 = [ConnEv.disconnected, ConnEv.wantReconnect] ∧
    (runTicks connEx 150).1.current_nick_idx = 0 :=
  ⟨rfl, rfl, rfl, rfl, rfl, rfl, rfl, rfl, rfl, rfl, rfl, rfl, rfl, rfl, rfl⟩

/-! ## Claim C8 -/

/-- C8: on a 002 reply whose text is shorter than the 13 skipped bytes, and
on a 302 reply with fewer than two parameters, message handling panics
(byte-slice and index out of range) instead of silently skipping —
the `none` results are the panics. -/
theorem C8_thm :
    parse_servername ["tiny_test", "Your host"] = none ∧
    connEx.handle_msg c8msgA = none ∧
    connEx.handle_msg c8msgB = none :=
  ⟨rfl, rfl, rfl⟩

/-! ## Claim C3 -/

/-- C3 counterexample: `split_privmsg` can compute a positive budget (here
1 byte) on which a multibyte message makes the splitter panic: no sequence
of slices is yielded at all, so the claimed bound/concatenation property
fails. -/
theorem C3_cex :
    (0 : Int) < split_budget ("n" : String).utf8ByteSize (some "u!a@b") 489 ∧
    split_budget ("n" : String).utf8ByteSize (some "u!a@b") 489 = 1 ∧
    c3ex.split_privmsg 489 ("éé".toList) = none := by
  refine ⟨by decide, rfl, rfl⟩

/-- C3 (amended): whenever the computed budget is positive and every
character of the message fits in the budget (always true for budgets ≥ 4),
`split_privmsg` succeeds, every yielded slice is at most the budget in
bytes, and the slices concatenate back to the message. -/
theorem C3_thm (c : Conn) (extra_len : Int) (msg : List Char) (nick : String)
    (hn : c.getNick = some nick)
    (hpos : 0 < split_budget nick.utf8ByteSize c.usermask extra_len)
    (hfit : ∀ ch ∈ msg,
      ch.utf8Size ≤ (split_budget nick.utf8ByteSize c.usermask extra_len).toNat) :
    ∃ l, c.split_privmsg extra_len msg = some l ∧
      (∀ x ∈ l, utf8Len x ≤ (split_budget nick.utf8ByteSize c.usermask extra_len).toNat) ∧
      l.flatten = msg := by
  obtain ⟨l, hl, hlen, hcat⟩ :=
    split_iterator_sound msg (split_budget nick.utf8ByteSize c.usermask extra_len).toNat
      (by omega) hfit
  refine ⟨l, ?_, hlen, hcat⟩
  unfold Conn.split_privmsg
  rw [hn]
  simp [hpos, hl]

/-- C3 witness. -/
theorem C3_wit :
    ∃ l, c3ex.split_privmsg 0 ("hello world".toList) = some l ∧
      (∀ x ∈ l, utf8Len x ≤ (split_budget ("n" : String).utf8ByteSize c3ex.usermask 0).toNat) ∧
      l.flatten = "hello world".toList :=
  C3_thm c3ex 0 ("hello world".toList) "n" rfl (by decide) (by decide)

/-! ## Claim C5 -/

/-- C5 counterexample: a CAP LS frame on a connection with a configured
server password makes the code send NICK and USER but never PASS (the code
passes `None` for the password to `introduce`), contradicting the claim
that PASS is sent when configured. -/
theorem C5_cex :
    c5ex.pass = some "pw" ∧
    c5ex.handle_msg c5msg =
      some (c5ex,
        [WireMsg.nickMsg "a", WireMsg.userMsg "h" "r", WireMsg.capReqMsg ["sasl"]],
        [ConnEv.msg c5msg]) ∧
    ([WireMsg.nickMsg "a", WireMsg.userMsg "h" "r", WireMsg.capReqMsg ["sasl"]].all
      (fun w => match w with
        | WireMsg.passMsg _ => false
        | _ => true)) = true :=
  ⟨rfl, rfl, rfl⟩

/-- C5 (amended): on every inbound CAP LS frame over a live stream the
connection sends NICK `nicks[0]` then USER — never PASS, even when a server
password is configured — and additionally CAP REQ :sasl exactly when "sasl"
appears in the advertised capabilities. -/
theorem C5_thm (c : Conn) (pfx : Option Pfx) (client : String) (params : List String)
    (n0 : String) (rest : List String)
    (hs : c.hasStream = true) (hn : c.nicks = n0 :: rest) :
    c.handle_msg { pfx := pfx, cmd := Cmd.cap client "LS" params } =
      some (c,
        [WireMsg.nickMsg n0, WireMsg.userMsg c.hostname c.realname] ++
          (if params.any (fun cap => cap = "sasl") then [WireMsg.capReqMsg ["sasl"]] else []),
        [ConnEv.msg { pfx := pfx, cmd := Cmd.cap client "LS" params }]) := by
  unfold Conn.handle_msg arms
  simp only [List.foldl, armSeq, capArm, authArm, saslResultArm, pingArm, joinArm,
    r396Arm, r302Arm, r001Arm, r002Arm, r433Arm, nickArm, r376Arm, r332Arm,
    introduce, hs, hn]
  simp

/-- C5 witness. -/
theorem C5_wit :
    c5ex.handle_msg { pfx := none, cmd := Cmd.cap "*" "LS" ["sasl"] } =
      some (c5ex,
        [WireMsg.nickMsg "a", WireMsg.userMsg c5ex.hostname c5ex.realname] ++
          (if ["sasl"].any (fun cap => cap = "sasl") then [WireMsg.capReqMsg ["sasl"]] else []),
        [ConnEv.msg { pfx := none, cmd := Cmd.cap "*" "LS" ["sasl"] }]) :=
  C5_thm c5ex none "*" ["sasl"] "a" ["b"] rfl rfl

/-! ## Claim C6 -/

/-- C6: handling a 433 reply while `nick_accepted` is false advances to the
next nick: with room left in `nicks` only the index moves and nothing is
sent; at the end of the list `last ++ "_"` is appended and `NICK` is sent;
on nicks `["a","b"]` three 433s produce no send, then `NICK b_`, then
`NICK b__`. -/
theorem C6_thm :
    (∀ (c : Conn) (pfx : Option Pfx) (ps : List String),
      c.nick_accepted = false →
      c.current_nick_idx + 1 < c.nicks.length →
      c.handle_msg { pfx := pfx, cmd := Cmd.reply 433 ps } =
        some ({ c with current_nick_idx := c.current_nick_idx + 1 }, [],
          [ConnEv.msg { pfx := pfx, cmd := Cmd.reply 433 ps }])) ∧
    (∀ (c : Conn) (pfx : Option Pfx) (ps : List String) (last : String),
      c.nick_accepted = false →
      c.hasStream = true →
      c.current_nick_idx + 1 = c.nicks.length →
      c.nicks.getLast? = some last →
      c.handle_msg { pfx := pfx, cmd := Cmd.reply 433 ps } =
        some ({ c with nicks := c.nicks ++ [last ++ "_"],
                       current_nick_idx := c.current_nick_idx + 1 },
          [WireMsg.nickMsg (last ++ "_")],
          [ConnEv.msg { pfx := pfx, cmd := Cmd.reply 433 ps }])) ∧
    c6ex.handle_msg m433 = some (c6ex1, [], [ConnEv.msg m433]) ∧
    c6ex1.handle_msg m433 = some (c6ex2, [WireMsg.nickMsg "b_"], [ConnEv.msg m433]) ∧
    c6ex2.handle_msg m433 = some (c6ex3, [WireMsg.nickMsg "b__"], [ConnEv.msg m433]) := by
  refine ⟨?_, ?_, rfl, rfl, rfl⟩
  · intro c pfx ps hna hlt
    have hne : ¬(c.current_nick_idx + 1 = c.nicks.length) := by omega
    unfold Conn.handle_msg arms
    simp only [List.foldl, armSeq, capArm, authArm, saslResultArm, pingArm, joinArm,
      r396Arm, r302Arm, r001Arm, r002Arm, r433Arm, nickArm, r376Arm, r332Arm,
      Conn.next_nick, hna, hne]
    simp [hna, hne]
  · intro c pfx ps last hna hs heq hlast
    unfold Conn.handle_msg arms
    simp only [List.foldl, armSeq, capArm, authArm, saslResultArm, pingArm, joinArm,
      r396Arm, r302Arm, r001Arm, r002Arm, r433Arm, nickArm, r376Arm, r332Arm,
      Conn.next_nick, hna, heq, hlast, hs]
    simp [hna, heq, hlast, hs]

/-- C6 witness. -/
theorem C6_wit :
    c6ex.handle_msg { pfx := none, cmd := Cmd.reply 433 [] } =
      some ({ c6ex with current_nick_idx := c6ex.current_nick_idx + 1 }, [],
        [ConnEv.msg { pfx := none, cmd := Cmd.reply 433 [] }]) :=
  C6_thm.1 c6ex none [] rfl (by decide)

/-! ## Claim C9 -/

/-- C9: the invariant `0 ≤ current_nick_idx < |nicks|` (hence `nicks` never
empty) is established by construction from a config with a nonempty nick
list and preserved by every operation: `tick`, `reset_ticks`, `set_nick`,
`next_nick`, `reconnect`, message dispatch and `read_ready`. -/
theorem C9_thm :
    (∀ c : Conn, nickIdxInv c → c.nicks ≠ []) ∧
    (∀ (server : ServerConfig) (r : Conn × List WireMsg),
      server.nicks ≠ [] → Conn.new server = some r → nickIdxInv r.1) ∧
    (∀ c : Conn, nickIdxInv c → nickIdxInv (Conn.tick c).1) ∧
    (∀ c : Conn, nickIdxInv c → nickIdxInv c.reset_ticks) ∧
    (∀ (c : Conn) (n : String), nickIdxInv c → nickIdxInv (c.set_nick n)) ∧
    (∀ (c : Conn) (r : Conn × List WireMsg),
      nickIdxInv c → c.next_nick = some r → nickIdxInv r.1) ∧
    (∀ (c : Conn) (ns : Option (String × Nat)) (ok : Bool) (r : Conn × List WireMsg),
      nickIdxInv c → c.reconnect ns ok = some r → nickIdxInv r.1) ∧
    (∀ (c : Conn) (m : Msg) (r : Step),
      nickIdxInv c → c.handle_msg m = some r → nickIdxInv r.1) ∧
    (∀ (c : Conn) (o : ReadOutcome) (r : Step),
      nickIdxInv c → c.read_ready o = some r → nickIdxInv r.1) := by
  refine ⟨?_, new_inv, tick_inv, reset_ticks_inv, ?_, next_nick_inv, reconnect_inv,
    handle_msg_inv, read_ready_inv⟩
  · intro c h heq
    unfold nickIdxInv at h
    rw [heq] at h
    simp at h
  · intro c n h
    exact set_nick_inv c n h

/-- C9 witness. -/
theorem C9_wit :
    connEx.nicks ≠ [] ∧ nickIdxInv (Conn.tick connEx).1 ∧
    nickIdxInv (connEx.set_nick "zed") :=
  ⟨C9_thm.1 connEx (by unfold nickIdxInv connEx; decide),
   C9_thm.2.2.1 connEx (by unfold nickIdxInv connEx; decide),
   C9_thm.2.2.2.2.1 connEx "zed" (by unfold nickIdxInv connEx; decide)⟩

/-! ## Claim C10 -/

/-- C10: every completed `read_ready` with a successful read — including one
that delivered zero bytes, i.e. no new messages — resets the link state: a
live (PingPong or WaitPong) connection ends in `PingPong{0}`, while a
Disconnected connection is left entirely unchanged and emits nothing. -/
theorem C10_thm (c : Conn) (msgs : List Msg) (r : Step)
    (h : c.read_ready (ReadOutcome.ok msgs) = some r) :
    (c.hasStream = true → r.1.conn_status = ConnStatus.pingPong 0) ∧
    (c.hasStream = false → r = (c, [], [])) := by
  unfold Conn.read_ready at h
  by_cases hs : c.hasStream = true
  · rw [if_pos hs] at h
    constructor
    · intro _
      rw [handle_msgs_status c.reset_ticks msgs r h]
      exact reset_ticks_status c hs
    · intro hsf
      rw [hs] at hsf
      exact Bool.noConfusion hsf
  · rw [if_neg hs] at h
    simp only [Option.some.injEq] at h
    subst h
    constructor
    · intro hst
      exact absurd hst hs
    · intro _
      rfl

/-- C10 witness. -/
theorem C10_wit :
    (c10ex.hasStream = true →
      (({ c10ex with conn_status := ConnStatus.pingPong 0 }, ([] : List WireMsg),
        ([] : List ConnEv)) : Step).1.conn_status = ConnStatus.pingPong 0) ∧
    (c10ex.hasStream = false →
      (({ c10ex with conn_status := ConnStatus.pingPong 0 }, ([] : List WireMsg),
        ([] : List ConnEv)) : Step) = (c10ex, [], [])) :=
  C10_thm c10ex []
    ({ c10ex with conn_status := ConnStatus.pingPong 0 }, [], []) rfl

end Tiny
